import Mathlib

/-!
# Verification of the travel-planner versioned store and rate limiter

Shallow embedding of the SQL core of the repository:
* `check_rate_limit` and its tables, from the API rate-limiting migration
  (`api_rate_limits`, `api_requests`);
* `create_travel_plan_version`, `get_travel_plan_history` and the
  `travel_plans_paginated` view, from
  `travel_planner/data/migrations/02_versioning_and_pagination.sql`,
  over the `travel_plans` table of `01_initial_schema.sql`.

Timestamps are modelled as integers (seconds); Postgres intervals of
1 minute / 1 hour / 1 day become 60 / 3600 / 86400. Columns never read by
the modelled functions (payload blobs, endpoints' metadata, float retry
factors) are omitted or kept opaque.
-/

/-! ## Rate limiter (`api_rate_limits`, `api_requests`, `check_rate_limit`) -/

/-- One row of `api_rate_limits`. `retry_backoff_factor` (FLOAT) and the
timestamps are omitted: `check_rate_limit` never reads them. -/
structure RateLimitPolicy where
  service_name : String
  requests_per_minute : Int
  requests_per_hour : Int
  requests_per_day : Int
  cooldown_period_ms : Int
  max_retries : Int
deriving DecidableEq, Repr

/-- One row of `api_requests`. `success` is a nullable BOOLEAN: `none`
models SQL NULL, i.e. an in-flight call whose outcome is still pending.
Payload and reference columns are omitted: `check_rate_limit` filters only
on `service_name` and `request_time`. -/
structure ApiRequest where
  service_name : String
  endpoint : String
  request_time : Int
  response_time : Option Int
  success : Option Bool
deriving DecidableEq, Repr

/-- `SELECT * INTO limits FROM api_rate_limits WHERE service_name = p`;
`service_name` is UNIQUE, so the first match is the row. -/
def lookupPolicy (policies : List RateLimitPolicy) (svc : String) :
    Option RateLimitPolicy :=
  policies.find? (fun p => p.service_name == svc)

/-- `SELECT COUNT(*) FROM api_requests WHERE service_name = svc AND
request_time > NOW() - window`: the count of entries for the service whose
`request_time` is strictly inside the trailing window. No condition on
`success` appears in the source query. -/
def countWindow (reqs : List ApiRequest) (svc : String) (now window : Int) :
    Nat :=
  reqs.countP (fun r => r.service_name == svc && decide (now - window < r.request_time))

/-- The row type returned by `check_rate_limit`. -/
structure Decision where
  allowed : Bool
  cooldown_ms : Int
  reason : String
deriving DecidableEq, Repr

/-- `check_rate_limit(p_service_name)`: look up the policy (absent policy
returns the permissive default), then test the minute, hour and day windows
in that order, with cooldowns ×1, ×5, ×20. -/
def check_rate_limit (policies : List RateLimitPolicy)
    (reqs : List ApiRequest) (now : Int) (svc : String) : Decision :=
  match lookupPolicy policies svc with
  | none =>
      { allowed := true, cooldown_ms := 0,
        reason := "Service not in rate limit table, using default allowance" }
  | some limits =>
      if limits.requests_per_minute ≤ (countWindow reqs svc now 60 : Int) then
        { allowed := false, cooldown_ms := limits.cooldown_period_ms,
          reason := "Exceeded requests per minute limit" }
      else if limits.requests_per_hour ≤ (countWindow reqs svc now 3600 : Int) then
        { allowed := false, cooldown_ms := limits.cooldown_period_ms * 5,
          reason := "Exceeded requests per hour limit" }
      else if limits.requests_per_day ≤ (countWindow reqs svc now 86400 : Int) then
        { allowed := false, cooldown_ms := limits.cooldown_period_ms * 20,
          reason := "Exceeded requests per day limit" }
      else
        { allowed := true, cooldown_ms := 0, reason := "Request allowed" }

/-! ## Version chain store (`travel_plans`, `create_travel_plan_version`,
`get_travel_plan_history`) -/

/-- A JSONB value. SQL NULL stored in a JSONB column and JSON `null` both
reach the merge as `null` (`jsonb_build_object` turns a NULL column into
JSON null). -/
inductive Jval where
  | null : Jval
  | bool : Bool → Jval
  | num : Int → Jval
  | str : String → Jval
  | arr : List Jval → Jval
  | obj : List (String × Jval) → Jval

/-- The twelve keys `jsonb_build_object` packs into `old_plan` inside
`create_travel_plan_version`, in source order. -/
inductive PlanField where
  | user_id | travel_query_id | destination | flights | accommodation
  | transportation | activities | budget | overview | recommendations
  | alerts | metadata
deriving DecidableEq, Repr

/-- The content columns of a `travel_plans` row, as the JSONB object
`old_plan` built by `create_travel_plan_version`. `user_id`,
`travel_query_id` (UUID) and `overview` (TEXT) are carried as their JSONB
images, which is how the merge sees them; the INSERT extracts them back out
with `->>` and a cast. -/
structure PlanDoc where
  user_id : Jval
  travel_query_id : Jval
  destination : Jval
  flights : Jval
  accommodation : Jval
  transportation : Jval
  activities : Jval
  budget : Jval
  overview : Jval
  recommendations : Jval
  alerts : Jval
  metadata : Jval

/-- Projection of a `PlanDoc` at a named key. -/
def PlanDoc.get (d : PlanDoc) : PlanField → Jval
  | .user_id => d.user_id
  | .travel_query_id => d.travel_query_id
  | .destination => d.destination
  | .flights => d.flights
  | .accommodation => d.accommodation
  | .transportation => d.transportation
  | .activities => d.activities
  | .budget => d.budget
  | .overview => d.overview
  | .recommendations => d.recommendations
  | .alerts => d.alerts
  | .metadata => d.metadata

/-- The `updates` JSONB argument, restricted to the twelve keys the INSERT
extracts (JSONB object keys are unique; keys outside the twelve survive the
`||` but are dropped by the extraction, so they are unobservable). `none`
means the key is absent from `updates`; `some .null` is an explicit JSON
null. -/
structure PlanUpdates where
  user_id : Option Jval := none
  travel_query_id : Option Jval := none
  destination : Option Jval := none
  flights : Option Jval := none
  accommodation : Option Jval := none
  transportation : Option Jval := none
  activities : Option Jval := none
  budget : Option Jval := none
  overview : Option Jval := none
  recommendations : Option Jval := none
  alerts : Option Jval := none
  metadata : Option Jval := none

/-- Projection of a `PlanUpdates` at a named key. -/
def PlanUpdates.get (u : PlanUpdates) : PlanField → Option Jval
  | .user_id => u.user_id
  | .travel_query_id => u.travel_query_id
  | .destination => u.destination
  | .flights => u.flights
  | .accommodation => u.accommodation
  | .transportation => u.transportation
  | .activities => u.activities
  | .budget => u.budget
  | .overview => u.overview
  | .recommendations => u.recommendations
  | .alerts => u.alerts
  | .metadata => u.metadata

/-- `new_plan = old_plan || updates`: JSONB concatenation of two objects —
every key present in `updates` whole-replaces the old value (including an
explicit JSON null), every absent key keeps the old value. -/
def mergePlan (old : PlanDoc) (u : PlanUpdates) : PlanDoc where
  user_id := u.user_id.getD old.user_id
  travel_query_id := u.travel_query_id.getD old.travel_query_id
  destination := u.destination.getD old.destination
  flights := u.flights.getD old.flights
  accommodation := u.accommodation.getD old.accommodation
  transportation := u.transportation.getD old.transportation
  activities := u.activities.getD old.activities
  budget := u.budget.getD old.budget
  overview := u.overview.getD old.overview
  recommendations := u.recommendations.getD old.recommendations
  alerts := u.alerts.getD old.alerts
  metadata := u.metadata.getD old.metadata

/-- A `travel_plans` row after the versioning migration: content columns
plus `version` (DEFAULT 1), nullable `parent_id`, nullable
`modification_reason`, and `created_at`. Ids are opaque unique
identifiers, modelled as naturals. -/
structure PlanRow where
  id : Nat
  doc : PlanDoc
  version : Nat
  parent_id : Option Nat
  modification_reason : Option String
  created_at : Nat

/-- The `travel_plans` table plus the id/clock generators (`uuid_generate_v4`
and `NOW()` defaults): `nextId` is the next fresh id, `clock` the next
`created_at`. -/
structure Store where
  rows : List PlanRow
  nextId : Nat
  clock : Nat

/-- The empty store. -/
def Store.empty : Store := { rows := [], nextId := 0, clock := 0 }

/-- A plain INSERT into `travel_plans` with the schema defaults
`version = 1`, `parent_id = NULL`, `modification_reason = NULL`: this is
how a root plan is created (no dedicated SQL function exists; the defaults
of `01_initial_schema.sql` and the versioning migration supply the values). -/
def create_root (s : Store) (doc : PlanDoc) : Store where
  rows := s.rows ++
    [{ id := s.nextId, doc := doc, version := 1, parent_id := none,
       modification_reason := none, created_at := s.clock }]
  nextId := s.nextId + 1
  clock := s.clock + 1

/-- Errors raised by the store functions. `RAISE EXCEPTION 'Travel plan
with ID % not found'` becomes `notFound`. -/
inductive StoreErr where
  | notFound : Nat → StoreErr
deriving DecidableEq, Repr

/-- `create_travel_plan_version(plan_id, modification_reason, updates)`:
load the row at `plan_id` (raise if absent), merge `updates` over its
content with `||`, and INSERT a new row with `version = current + 1` and
`parent_id = plan_id`, returning the new id. -/
def create_travel_plan_version (s : Store) (plan_id : Nat)
    (reason : Option String) (updates : PlanUpdates) :
    Except StoreErr (Store × Nat) :=
  match s.rows.find? (fun r => r.id == plan_id) with
  | none => .error (.notFound plan_id)
  | some old =>
      .ok ({ rows := s.rows ++
               [{ id := s.nextId, doc := mergePlan old.doc updates,
                  version := old.version + 1, parent_id := some plan_id,
                  modification_reason := reason, created_at := s.clock }],
             nextId := s.nextId + 1,
             clock := s.clock + 1 },
           s.nextId)

/-- The projection `get_travel_plan_history` returns per row. -/
structure HistRow where
  id : Nat
  version : Nat
  parent_id : Option Nat
  modification_reason : Option String
  created_at : Nat
deriving DecidableEq, Repr

/-- Row projection used by the history function's SELECT list. -/
def PlanRow.toHist (r : PlanRow) : HistRow where
  id := r.id
  version := r.version
  parent_id := r.parent_id
  modification_reason := r.modification_reason
  created_at := r.created_at

/-- One recursive step of the `plan_hierarchy` CTE: all rows whose
`parent_id` joins the previous level's `id`. -/
def cteStep (rows level : List PlanRow) : List PlanRow :=
  rows.filter (fun r => level.any (fun p => r.parent_id == some p.id))

/-- The `UNION ALL` of the CTE levels, starting from `level` and running
`fuel` rounds. The real CTE iterates until a level is empty; on an acyclic
table every level beyond depth `rows.length` is empty, so
`fuel = rows.length + 1` computes the fixpoint. -/
def cteIter (rows : List PlanRow) : Nat → List PlanRow → List PlanRow
  | 0, _ => []
  | fuel + 1, level => level ++ cteIter rows fuel (cteStep rows level)

/-- `get_travel_plan_history(root_plan_id)`: the recursive CTE anchored at
`WHERE id = root_plan_id`, descending through children (`tp.parent_id =
ph.id`), projected and ordered by `version` ascending. The body contains no
RAISE: it always returns a (possibly empty) table, hence always `.ok`. -/
def get_travel_plan_history (rows : List PlanRow) (root_plan_id : Nat) :
    Except StoreErr (List HistRow) :=
  .ok (((cteIter rows (rows.length + 1)
          (rows.filter (fun r => r.id == root_plan_id))).map PlanRow.toHist).insertionSort
        (fun a b => a.version ≤ b.version))

/-- States reachable by the store's operations: the empty table, a root
INSERT, or a successful `create_travel_plan_version`. -/
inductive Reachable : Store → Prop where
  | init : Reachable Store.empty
  | root (s : Store) (doc : PlanDoc) : Reachable s → Reachable (create_root s doc)
  | version (s : Store) (plan_id : Nat) (reason : Option String)
      (updates : PlanUpdates) (s2 : Store) (nid : Nat) :
      Reachable s →
      create_travel_plan_version s plan_id reason updates = .ok (s2, nid) →
      Reachable s2

/-- Walk `parent_id` backward from a row, spending one fuel per step:
stop at a root (`parent_id = NULL`) or on a dangling parent. -/
def ancestorPath (rows : List PlanRow) : Nat → PlanRow → List PlanRow
  | 0, r => [r]
  | fuel + 1, r =>
      match r.parent_id with
      | none => [r]
      | some p =>
          match rows.find? (fun x => x.id == p) with
          | none => [r]
          | some pr => r :: ancestorPath rows fuel pr

/-- The structural invariant of the `travel_plans` table: ids are fresh and
unique, a root (`parent_id = NULL`) carries `version = 1`, and every child's
`parent_id` references a stored row whose version is exactly one less. -/
structure StoreInv (s : Store) : Prop where
  bounded : ∀ r ∈ s.rows, r.id < s.nextId
  nodupIds : s.rows.Pairwise (fun a b => a.id ≠ b.id)
  rootOne : ∀ r ∈ s.rows, r.parent_id = none → r.version = 1
  parentStep : ∀ r ∈ s.rows, ∀ p, r.parent_id = some p →
    ∃ pr, pr ∈ s.rows ∧ pr.id = p ∧ r.version = pr.version + 1

/-! ## Pagination view (`travel_plans_paginated`) -/

/-- The columns of a `travel_plans` row that the pagination view's window
functions read: `user_id` partitions, `created_at` orders, and
`travel_query_id` drives the join with `travel_queries` (nullable, per
`01_initial_schema.sql`). The projected display columns (destination name,
dates, cost) do not affect cursors or counts and are omitted. -/
structure ListPlan where
  id : Nat
  user_id : Nat
  travel_query_id : Option Nat
  created_at : Int
deriving DecidableEq, Repr

/-- `FROM travel_plans tp JOIN travel_queries tq ON tp.travel_query_id =
tq.id`: an inner join, so a plan row with a NULL or dangling
`travel_query_id` produces no view row. `queries` is the list of
`travel_queries.id` values. -/
def joinedPlans (plans : List ListPlan) (queries : List Nat) : List ListPlan :=
  plans.filter (fun p =>
    match p.travel_query_id with
    | some q => queries.contains q
    | none => false)

/-- The window ordering `ORDER BY tp.created_at DESC`. -/
def createdDesc (a b : ListPlan) : Prop := b.created_at ≤ a.created_at

instance : DecidableRel createdDesc := fun a b => by
  unfold createdDesc
  infer_instance

instance : IsTotal ListPlan createdDesc :=
  ⟨fun a b => by
    unfold createdDesc
    exact le_total b.created_at a.created_at⟩

instance : IsTrans ListPlan createdDesc :=
  ⟨fun _ _ _ hab hbc => le_trans hbc hab⟩

/-- The owner's window partition (`PARTITION BY tp.user_id`), ordered by
`created_at` descending. -/
def userPartition (plans : List ListPlan) (queries : List Nat) (u : Nat) :
    List ListPlan :=
  List.insertionSort createdDesc
    ((joinedPlans plans queries).filter (fun p => p.user_id == u))

/-- `LEAD` over a materialized ordering: the element following the first
occurrence of `x`. -/
def nextAfter : List ListPlan → ListPlan → Option ListPlan
  | [], _ => none
  | [_], _ => none
  | a :: b :: rest, x => if a = x then some b else nextAfter (b :: rest) x

/-- `LAG` over a materialized ordering: the element preceding `x`, i.e. the
one following `x` in the reversed ordering. -/
def prevBefore (l : List ListPlan) (x : ListPlan) : Option ListPlan :=
  nextAfter l.reverse x

/-- The pagination columns of one `travel_plans_paginated` view row. -/
structure PagRow where
  id : Nat
  user_id : Nat
  next_cursor : Option Nat
  prev_cursor : Option Nat
  total_user_plans : Nat
deriving DecidableEq, Repr

/-- The view row generated for one joined plan row: `LEAD(tp.id)` /
`LAG(tp.id)` over the owner partition ordered by `created_at DESC`, and
`COUNT(*)` over the owner partition. -/
def pagRowOf (plans : List ListPlan) (queries : List Nat) (p : ListPlan) :
    PagRow where
  id := p.id
  user_id := p.user_id
  next_cursor := (nextAfter (userPartition plans queries p.user_id) p).map
    (fun q => q.id)
  prev_cursor := (prevBefore (userPartition plans queries p.user_id) p).map
    (fun q => q.id)
  total_user_plans :=
    ((joinedPlans plans queries).filter (fun q => q.user_id == p.user_id)).length

/-- The `travel_plans_paginated` view: one row per joined plan row, with the
windowed pagination metadata. -/
def travel_plans_paginated (plans : List ListPlan) (queries : List Nat) :
    List PagRow :=
  (joinedPlans plans queries).map (pagRowOf plans queries)

/-! ## Concrete instances for witnesses and counterexamples -/

/-- The spec's root document: `destination = {name: "Tokyo"}`, with a
non-null `flights` field to observe carry-over. -/
def docTokyo : PlanDoc where
  user_id := Jval.str "u1"
  travel_query_id := Jval.str "q1"
  destination := Jval.obj [("name", Jval.str "Tokyo")]
  flights := Jval.str "JL123"
  accommodation := Jval.null
  transportation := Jval.null
  activities := Jval.null
  budget := Jval.null
  overview := Jval.str "trip"
  recommendations := Jval.null
  alerts := Jval.null
  metadata := Jval.null

/-- The spec's update: replace `destination` by `{name: "Kyoto"}`; every
other key absent. -/
def updKyoto : PlanUpdates := { destination := some (Jval.obj [("name", Jval.str "Kyoto")]) }

/-- Root row `P1`: the result of the root INSERT on the empty store. -/
def rootRow : PlanRow where
  id := 0
  doc := docTokyo
  version := 1
  parent_id := none
  modification_reason := none
  created_at := 0

/-- The one-row store holding `P1`. -/
def demoStore1 : Store := { rows := [rootRow], nextId := 1, clock := 1 }

/-- Child row `P2`: the row `create_travel_plan_version` inserts for
`updKyoto` on `P1`. -/
def childRow : PlanRow where
  id := 1
  doc := mergePlan docTokyo updKyoto
  version := 2
  parent_id := some 0
  modification_reason := some "swap destination"
  created_at := 1

/-- The chain `P1 ← P2`. -/
def demoRows : List PlanRow := [rootRow, childRow]

/-- The two-row store holding the chain `P1 ← P2`. -/
def demoStore2 : Store := { rows := demoRows, nextId := 2, clock := 2 }

/-- An update that rewrites the ownership and query-reference keys. -/
def updOwner : PlanUpdates :=
  { user_id := some (Jval.str "u2"), travel_query_id := some (Jval.str "q2") }

/-- Two plans of owner 7, both referencing the existing query 1, with
distinct creation times. -/
def plansW : List ListPlan :=
  [{ id := 0, user_id := 7, travel_query_id := some 1, created_at := 10 },
   { id := 2, user_id := 7, travel_query_id := some 1, created_at := 5 }]

/-- Two plans of owner 7, one of which has a NULL `travel_query_id`. -/
def plansCx : List ListPlan :=
  [{ id := 0, user_id := 7, travel_query_id := some 1, created_at := 10 },
   { id := 1, user_id := 7, travel_query_id := none, created_at := 5 }]

/-- The spec's phrasing of a window count: entries whose age
`now - request_time` is strictly below the window length. -/
def specWindowCount (reqs : List ApiRequest) (svc : String)
    (now window : Int) : Nat :=
  reqs.countP (fun r => r.service_name == svc && decide (now - r.request_time < window))

theorem specWindowCount_eq_countWindow (reqs : List ApiRequest)
    (svc : String) (now window : Int) :
    specWindowCount reqs svc now window = countWindow reqs svc now window := by
  unfold specWindowCount countWindow
  apply List.countP_congr
  intro r _
  constructor
  · intro h
    rcases Bool.and_eq_true _ _ |>.mp h with ⟨h1, h2⟩
    refine Bool.and_eq_true _ _ |>.mpr ⟨h1, ?_⟩
    rw [decide_eq_true_iff] at h2 ⊢
    omega
  · intro h
    rcases Bool.and_eq_true _ _ |>.mp h with ⟨h1, h2⟩
    refine Bool.and_eq_true _ _ |>.mpr ⟨h1, ?_⟩
    rw [decide_eq_true_iff] at h2 ⊢
    omega

/-- C7: for a service with no policy row, `check_rate_limit` returns the
permissive decision `allowed = true, cooldown_ms = 0`; it never raises. -/
theorem check_rate_limit_no_policy_allows (policies : List RateLimitPolicy)
    (reqs : List ApiRequest) (now : Int) (svc : String)
    (h : lookupPolicy policies svc = none) :
    check_rate_limit policies reqs now svc =
      { allowed := true, cooldown_ms := 0,
        reason := "Service not in rate limit table, using default allowance" } := by
  unfold check_rate_limit
  rw [h]

/-- C7 witness: the empty policy table allows any service. -/
theorem check_rate_limit_no_policy_allows_witness :
    check_rate_limit [] [] 0 "openai" =
      { allowed := true, cooldown_ms := 0,
        reason := "Service not in rate limit table, using default allowance" } :=
  check_rate_limit_no_policy_allows [] [] 0 "openai" rfl

/-- C2: with a policy present, `check_rate_limit` evaluates the windows in
the order minute, hour, day over strict trailing-window counts (an entry
aged 60 seconds or more is outside the minute window), returns the
cooldowns ×1, ×5, ×20 respectively, and reports a minute violation without
consulting the hour or day windows. -/
theorem check_rate_limit_window_cascade (policies : List RateLimitPolicy)
    (reqs : List ApiRequest) (now : Int) (svc : String)
    (limits : RateLimitPolicy)
    (hpol : lookupPolicy policies svc = some limits) :
    (limits.requests_per_minute ≤ (specWindowCount reqs svc now 60 : Int) →
      check_rate_limit policies reqs now svc =
        { allowed := false, cooldown_ms := limits.cooldown_period_ms,
          reason := "Exceeded requests per minute limit" }) ∧
    ((specWindowCount reqs svc now 60 : Int) < limits.requests_per_minute →
      limits.requests_per_hour ≤ (specWindowCount reqs svc now 3600 : Int) →
      check_rate_limit policies reqs now svc =
        { allowed := false, cooldown_ms := limits.cooldown_period_ms * 5,
          reason := "Exceeded requests per hour limit" }) ∧
    ((specWindowCount reqs svc now 60 : Int) < limits.requests_per_minute →
      (specWindowCount reqs svc now 3600 : Int) < limits.requests_per_hour →
      limits.requests_per_day ≤ (specWindowCount reqs svc now 86400 : Int) →
      check_rate_limit policies reqs now svc =
        { allowed := false, cooldown_ms := limits.cooldown_period_ms * 20,
          reason := "Exceeded requests per day limit" }) ∧
    ((specWindowCount reqs svc now 60 : Int) < limits.requests_per_minute →
      (specWindowCount reqs svc now 3600 : Int) < limits.requests_per_hour →
      (specWindowCount reqs svc now 86400 : Int) < limits.requests_per_day →
      check_rate_limit policies reqs now svc =
        { allowed := true, cooldown_ms := 0, reason := "Request allowed" }) := by
  simp only [specWindowCount_eq_countWindow]
  simp only [check_rate_limit, hpol]
  refine ⟨?_, ?_, ?_, ?_⟩
  · intro h1
    rw [if_pos h1]
  · intro h1 h2
    rw [if_neg (not_le.mpr h1), if_pos h2]
  · intro h1 h2 h3
    rw [if_neg (not_le.mpr h1), if_neg (not_le.mpr h2), if_pos h3]
  · intro h1 h2 h3
    rw [if_neg (not_le.mpr h1), if_neg (not_le.mpr h2), if_neg (not_le.mpr h3)]

/-- C2 witness: a policy of one request per minute with one entry inside
the minute window denies with the unscaled cooldown, even though the hour
window is simultaneously saturated. -/
theorem check_rate_limit_window_cascade_witness :
    check_rate_limit
      [{ service_name := "svcA", requests_per_minute := 1,
         requests_per_hour := 1, requests_per_day := 1000,
         cooldown_period_ms := 1000, max_retries := 3 }]
      [{ service_name := "svcA", endpoint := "e", request_time := 100,
         response_time := none, success := some true }] 100 "svcA" =
      { allowed := false, cooldown_ms := 1000,
        reason := "Exceeded requests per minute limit" } := by
  have h := check_rate_limit_window_cascade
    [{ service_name := "svcA", requests_per_minute := 1,
       requests_per_hour := 1, requests_per_day := 1000,
       cooldown_period_ms := 1000, max_retries := 3 }]
    [{ service_name := "svcA", endpoint := "e", request_time := 100,
       response_time := none, success := some true }] 100 "svcA"
    { service_name := "svcA", requests_per_minute := 1,
      requests_per_hour := 1, requests_per_day := 1000,
      cooldown_period_ms := 1000, max_retries := 3 } rfl
  exact h.1 (by decide)

/-- C4 counterexample: a single ledger entry whose `success` is still
pending (`none`) is counted by the minute window and by itself flips the
decision to a denial — pending entries are not excluded from window
counts. -/
theorem check_rate_limit_counts_pending_counterexample :
    (ApiRequest.success
      { service_name := "svcA", endpoint := "e", request_time := 100,
        response_time := none, success := none } = none) ∧
    countWindow
      [{ service_name := "svcA", endpoint := "e", request_time := 100,
         response_time := none, success := none }] "svcA" 100 60 = 1 ∧
    check_rate_limit
      [{ service_name := "svcA", requests_per_minute := 1,
         requests_per_hour := 100, requests_per_day := 1000,
         cooldown_period_ms := 2000, max_retries := 3 }]
      [{ service_name := "svcA", endpoint := "e", request_time := 100,
         response_time := none, success := none }] 100 "svcA" =
      { allowed := false, cooldown_ms := 2000,
        reason := "Exceeded requests per minute limit" } :=
  ⟨rfl, by decide, by decide⟩

/-- C4 (amended): window counts depend only on `service_name` and
`request_time`; the `success` column — pending or finalized — never
affects the decision, so in-flight entries are counted like any others. -/
theorem check_rate_limit_ignores_success (policies : List RateLimitPolicy)
    (reqs : List ApiRequest) (now : Int) (svc : String)
    (f : ApiRequest → Option Bool) :
    check_rate_limit policies
      (reqs.map (fun r => { r with success := f r })) now svc =
    check_rate_limit policies reqs now svc := by
  have hc : ∀ window : Int,
      countWindow (reqs.map (fun r => { r with success := f r })) svc now window =
      countWindow reqs svc now window := by
    intro window
    unfold countWindow
    rw [List.countP_map]
    exact List.countP_congr (fun r _ => Iff.rfl)
  unfold check_rate_limit
  rw [hc, hc, hc]

/-- The JSONB merge, read fieldwise: a key present in `updates` replaces
the old value, an absent key is carried over. -/
theorem mergePlan_get (old : PlanDoc) (u : PlanUpdates) (f : PlanField) :
    (mergePlan old u).get f = (u.get f).getD (old.get f) := by
  cases f <;> rfl

/-- On a table with unique ids, `find?` by id returns the member row. -/
theorem find_id_of_mem (rows : List PlanRow)
    (hnd : rows.Pairwise (fun a b => a.id ≠ b.id)) (pr : PlanRow)
    (hm : pr ∈ rows) : rows.find? (fun x => x.id == pr.id) = some pr := by
  induction rows with
  | nil => cases hm
  | cons a t ih =>
    rcases List.pairwise_cons.mp hnd with ⟨ha, ht⟩
    rcases List.mem_cons.mp hm with h | h
    · subst h
      simp [List.find?]
    · have hne : a.id ≠ pr.id := ha pr h
      rw [List.find?_cons_of_neg _ (by simpa using hne)]
      exact ih ht h

/-- Unique ids make the id an injective key on the table. -/
theorem pairwise_id_inj (rows : List PlanRow)
    (hnd : rows.Pairwise (fun a b => a.id ≠ b.id)) (a b : PlanRow)
    (ha : a ∈ rows) (hb : b ∈ rows) (hid : a.id = b.id) : a = b := by
  induction rows with
  | nil => cases ha
  | cons c t ih =>
    rcases List.pairwise_cons.mp hnd with ⟨hc, ht⟩
    rcases List.mem_cons.mp ha with h1 | h1 <;>
      rcases List.mem_cons.mp hb with h2 | h2
    · rw [h1, h2]
    · exact absurd (h1 ▸ hid) (hc b h2)
    · exact absurd (h2 ▸ hid).symm (hc a h1)
    · exact ih ht h1 h2

/-- A run of the recursive CTE that starts from an empty level stays
empty. -/
theorem cteIter_nil (rows : List PlanRow) : ∀ n, cteIter rows n [] = [] := by
  intro n
  induction n with
  | zero => rfl
  | succ n ih =>
    have hstep : cteStep rows [] = [] := by simp [cteStep]
    simp [cteIter, hstep, ih]

/-- Every reachable store satisfies the structural invariant. -/
theorem reachable_inv (s : Store) (h : Reachable s) : StoreInv s := by
  induction h with
  | init =>
    exact ⟨by simp [Store.empty], by simp [Store.empty],
      by simp [Store.empty], by simp [Store.empty]⟩
  | root s doc hs ih =>
    refine ⟨?_, ?_, ?_, ?_⟩
    · intro r hr
      rcases List.mem_append.mp hr with h1 | h1
      · have := ih.bounded r h1
        simp [create_root]
        omega
      · simp at h1
        simp [h1, create_root]
    · refine List.pairwise_append.mpr ⟨ih.nodupIds, List.pairwise_singleton _ _, ?_⟩
      intro a ha b hb
      simp at hb
      have := ih.bounded a ha
      subst hb
      simp [create_root]
      omega
    · intro r hr hp
      rcases List.mem_append.mp hr with h1 | h1
      · exact ih.rootOne r h1 hp
      · simp at h1
        simp [h1]
    · intro r hr p hp
      rcases List.mem_append.mp hr with h1 | h1
      · rcases ih.parentStep r h1 p hp with ⟨pr, hm, hi, hv⟩
        exact ⟨pr, List.mem_append_left _ hm, hi, hv⟩
      · simp at h1
        rw [h1] at hp
        cases hp
  | version s pid reason u s2 nid hs hcv ih =>
    unfold create_travel_plan_version at hcv
    cases hfind : s.rows.find? (fun r => r.id == pid) with
    | none =>
      rw [hfind] at hcv
      cases hcv
    | some old =>
      rw [hfind] at hcv
      have hold_mem : old ∈ s.rows := List.mem_of_find?_eq_some hfind
      have hold_id : old.id = pid := by
        have := List.find?_some hfind
        simpa using this
      injection hcv with h
      injection h with h1 h2
      subst h1
      refine ⟨?_, ?_, ?_, ?_⟩
      · intro r hr
        rcases List.mem_append.mp hr with hm | hm
        · have := ih.bounded r hm
          simp
          omega
        · simp at hm
          simp [hm]
      · refine List.pairwise_append.mpr ⟨ih.nodupIds, List.pairwise_singleton _ _, ?_⟩
        intro a ha b hb
        simp at hb
        have := ih.bounded a ha
        subst hb
        simp
        omega
      · intro r hr hp
        rcases List.mem_append.mp hr with hm | hm
        · exact ih.rootOne r hm hp
        · simp at hm
          rw [hm] at hp
          cases hp
      · intro r hr p hp
        rcases List.mem_append.mp hr with hm | hm
        · rcases ih.parentStep r hm p hp with ⟨pr, hmm, hi, hv⟩
          exact ⟨pr, List.mem_append_left _ hmm, hi, hv⟩
        · simp at hm
          rw [hm] at hp ⊢
          simp at hp
          subst hp
          exact ⟨old, List.mem_append_left _ hold_mem, hold_id, rfl⟩

/-- Under the invariant every stored version number is at least 1. -/
theorem version_ge_one (s : Store) (inv : StoreInv s) (r : PlanRow)
    (hr : r ∈ s.rows) : 1 ≤ r.version := by
  cases hp : r.parent_id with
  | none =>
      have := inv.rootOne r hr hp
      omega
  | some p =>
      rcases inv.parentStep r hr p hp with ⟨pr, _, _, hv⟩
      omega

/-- A root's backward walk is the singleton path, whatever the fuel. -/
theorem ancestorPath_of_root (rows : List PlanRow) (r : PlanRow)
    (hp : r.parent_id = none) : ∀ m, ancestorPath rows m r = [r] := by
  intro m
  cases m with
  | zero => rfl
  | succ m => simp [ancestorPath, hp]

/-- Backward walk specification, by strong induction on the version bound:
under the invariant, the walk from a stored row with enough fuel starts at
the row, ends at a root of version 1, steps parent-by-parent with versions
decreasing by exactly one, has length equal to the row's version, and is
independent of the fuel. -/
theorem ancestorPath_spec (s : Store) (inv : StoreInv s) :
    ∀ n, ∀ r ∈ s.rows, r.version ≤ n →
      ∀ fuel, r.version ≤ fuel + 1 →
        (ancestorPath s.rows fuel r).head? = some r ∧
        (∃ root, (ancestorPath s.rows fuel r).getLast? = some root ∧
          root.parent_id = none ∧ root.version = 1) ∧
        List.Chain' (fun a b => a.parent_id = some b.id ∧ a.version = b.version + 1)
          (ancestorPath s.rows fuel r) ∧
        (ancestorPath s.rows fuel r).length = r.version ∧
        ancestorPath s.rows fuel r = ancestorPath s.rows (r.version - 1) r := by
  intro n
  induction n with
  | zero =>
    intro r hr hv
    have := version_ge_one s inv r hr
    omega
  | succ n ih =>
    intro r hr hv fuel hfuel
    cases hp : r.parent_id with
    | none =>
      have h1 : r.version = 1 := inv.rootOne r hr hp
      rw [ancestorPath_of_root s.rows r hp fuel, ancestorPath_of_root s.rows r hp (r.version - 1)]
      refine ⟨rfl, ⟨r, rfl, hp, h1⟩, List.chain'_singleton r, by simp [h1], rfl⟩
    | some p =>
      rcases inv.parentStep r hr p hp with ⟨pr, hprm, hpid, hver⟩
      have hprv : 1 ≤ pr.version := version_ge_one s inv pr hprm
      obtain ⟨fuel1, rfl⟩ : ∃ m, fuel = m + 1 := by
        cases fuel with
        | zero => omega
        | succ m => exact ⟨m, rfl⟩
      have hfind : s.rows.find? (fun x => x.id == p) = some pr := by
        rw [← hpid]
        exact find_id_of_mem s.rows inv.nodupIds pr hprm
      have hstep : ∀ m, ancestorPath s.rows (m + 1) r = r :: ancestorPath s.rows m pr := by
        intro m
        simp [ancestorPath, hp, hfind]
      obtain ⟨hhead, ⟨root, hlast, hrootp, hrootv⟩, hchain, hlen, hstable⟩ :=
        ih pr hprm (by omega) fuel1 (by omega)
      obtain ⟨rest, hrest⟩ : ∃ rest, ancestorPath s.rows fuel1 pr = pr :: rest := by
        cases hpe : ancestorPath s.rows fuel1 pr with
        | nil =>
          rw [hpe] at hhead
          cases hhead
        | cons a t =>
          rw [hpe] at hhead
          simp at hhead
          exact ⟨t, by rw [hhead]⟩
      refine ⟨?_, ⟨root, ?_, hrootp, hrootv⟩, ?_, ?_, ?_⟩
      · rw [hstep]
        rfl
      · rw [hstep, hrest, List.getLast?_cons_cons, ← hrest]
        exact hlast
      · rw [hstep, hrest]
        exact List.chain'_cons.mpr ⟨⟨by rw [hp, hpid], by omega⟩, hrest ▸ hchain⟩
      · rw [hstep]
        simp [hlen]
        omega
      · have hv1 : r.version - 1 = (pr.version - 1) + 1 := by omega
        rw [hstep, hv1, hstep, hstable]

/-- C6: in every reachable store, walking `parent_id` backward from any
stored version terminates (independently of the fuel bound) at a root with
`parent_id = null` and `version = 1`, and along the walk each version is
exactly its parent's version plus one, the path length being the starting
version — so versions increase by exactly 1 from the root with no gaps. -/
theorem reachable_parent_walk_reaches_root (s : Store) (hs : Reachable s)
    (r : PlanRow) (hr : r ∈ s.rows) :
    (ancestorPath s.rows r.version r).head? = some r ∧
    (∃ root, (ancestorPath s.rows r.version r).getLast? = some root ∧
      root.parent_id = none ∧ root.version = 1) ∧
    List.Chain' (fun a b => a.parent_id = some b.id ∧ a.version = b.version + 1)
      (ancestorPath s.rows r.version r) ∧
    (ancestorPath s.rows r.version r).length = r.version ∧
    (∀ fuel, r.version - 1 ≤ fuel →
      ancestorPath s.rows fuel r = ancestorPath s.rows r.version r) := by
  have inv := reachable_inv s hs
  obtain ⟨h1, h2, h3, h4, h5⟩ :=
    ancestorPath_spec s inv r.version r hr le_rfl r.version (by omega)
  refine ⟨h1, h2, h3, h4, ?_⟩
  intro fuel hfuel
  obtain ⟨_, _, _, _, h5f⟩ :=
    ancestorPath_spec s inv r.version r hr le_rfl fuel (by omega)
  rw [h5f, ← h5]

/-- The one-row store arises from a root INSERT on the empty table. -/
theorem demoStore1_reachable : Reachable demoStore1 :=
  Reachable.root Store.empty docTokyo Reachable.init

/-- The two-row chain arises by versioning the root with the Kyoto
update. -/
theorem demoStore2_reachable : Reachable demoStore2 :=
  Reachable.version demoStore1 0 (some "swap destination") updKyoto
    demoStore2 1 demoStore1_reachable rfl

/-- C6 witness: the walk from `P2` in the concrete two-row chain. -/
theorem reachable_parent_walk_reaches_root_witness :
    (ancestorPath demoStore2.rows childRow.version childRow).head? = some childRow ∧
    (∃ root, (ancestorPath demoStore2.rows childRow.version childRow).getLast? = some root ∧
      root.parent_id = none ∧ root.version = 1) ∧
    List.Chain' (fun a b => a.parent_id = some b.id ∧ a.version = b.version + 1)
      (ancestorPath demoStore2.rows childRow.version childRow) ∧
    (ancestorPath demoStore2.rows childRow.version childRow).length = childRow.version ∧
    (∀ fuel, childRow.version - 1 ≤ fuel →
      ancestorPath demoStore2.rows fuel childRow =
        ancestorPath demoStore2.rows childRow.version childRow) :=
  reachable_parent_walk_reaches_root demoStore2 demoStore2_reachable childRow
    (by simp [demoStore2, demoRows])

/-- C3: `create_travel_plan_version` fails on an absent parent, and on a
present parent inserts exactly one new row whose version is the parent's
plus one, whose `parent_id` is the given id, and whose content is the
shallow merge-patch of the parent: each supplied key (including explicit
JSON null) whole-replaces the parent's field, each missing key is carried
over unchanged. -/
theorem create_travel_plan_version_merge_spec (s : Store) (plan_id : Nat)
    (reason : Option String) (u : PlanUpdates) :
    (s.rows.find? (fun r => r.id == plan_id) = none →
      create_travel_plan_version s plan_id reason u = .error (.notFound plan_id)) ∧
    (∀ old, s.rows.find? (fun r => r.id == plan_id) = some old →
      ∃ s2 nr, create_travel_plan_version s plan_id reason u = .ok (s2, nr.id) ∧
        s2.rows = s.rows ++ [nr] ∧
        nr.version = old.version + 1 ∧
        nr.parent_id = some plan_id ∧
        nr.modification_reason = reason ∧
        (∀ f v, u.get f = some v → nr.doc.get f = v) ∧
        (∀ f, u.get f = none → nr.doc.get f = old.doc.get f)) := by
  constructor
  · intro h
    unfold create_travel_plan_version
    rw [h]
  · intro old h
    unfold create_travel_plan_version
    rw [h]
    refine ⟨_, ⟨s.nextId, mergePlan old.doc u, old.version + 1, some plan_id,
      reason, s.clock⟩, rfl, rfl, rfl, rfl, rfl, ?_, ?_⟩
    · intro f v hv
      rw [mergePlan_get, hv]
      rfl
    · intro f hv
      rw [mergePlan_get, hv]
      rfl

/-- C3 witness: the Tokyo-to-Kyoto scenario — version 2, parent `P1`,
destination replaced, flights carried over. -/
theorem create_travel_plan_version_merge_spec_witness :
    create_travel_plan_version demoStore1 0 (some "swap destination") updKyoto =
      .ok (demoStore2, 1) ∧
    childRow.version = 2 ∧
    childRow.parent_id = some 0 ∧
    childRow.doc.get PlanField.destination = Jval.obj [("name", Jval.str "Kyoto")] ∧
    childRow.doc.get PlanField.flights = Jval.str "JL123" := by
  obtain ⟨s2, nr, h1, h2, h3, h4, h5, h6, h7⟩ :=
    (create_travel_plan_version_merge_spec demoStore1 0 (some "swap destination")
      updKyoto).2 rootRow rfl
  exact ⟨rfl, rfl, rfl, rfl, rfl⟩

/-- C10: when `updates` carries a `user_id` (and `travel_query_id`) key,
the shallow merge applies to those keys as well: the inserted child's owner
and query reference are the supplied values, not the parent's. -/
theorem create_travel_plan_version_overrides_refs (s : Store) (plan_id : Nat)
    (reason : Option String) (u : PlanUpdates) (old : PlanRow) (v w : Jval)
    (hfind : s.rows.find? (fun r => r.id == plan_id) = some old)
    (hu : u.user_id = some v) (hq : u.travel_query_id = some w) :
    ∃ s2 nr, create_travel_plan_version s plan_id reason u = .ok (s2, nr.id) ∧
      s2.rows = s.rows ++ [nr] ∧
      nr.doc.user_id = v ∧
      nr.doc.travel_query_id = w := by
  unfold create_travel_plan_version
  rw [hfind]
  refine ⟨_, ⟨s.nextId, mergePlan old.doc u, old.version + 1, some plan_id,
    reason, s.clock⟩, rfl, rfl, ?_, ?_⟩
  · show (u.user_id).getD old.doc.user_id = v
    rw [hu]
    rfl
  · show (u.travel_query_id).getD old.doc.travel_query_id = w
    rw [hq]
    rfl

/-- C10 witness: an update carrying new `user_id`/`travel_query_id` values
produces a child owned by the new owner. -/
theorem create_travel_plan_version_overrides_refs_witness :
    (mergePlan docTokyo updOwner).user_id = Jval.str "u2" ∧
    (mergePlan docTokyo updOwner).travel_query_id = Jval.str "q2" := by
  obtain ⟨s2, nr, h1, h2, h3, h4⟩ :=
    create_travel_plan_version_overrides_refs demoStore1 0 none updOwner rootRow
      (Jval.str "u2") (Jval.str "q2") rfl rfl rfl
  exact ⟨rfl, rfl⟩

/-- C9: store operations only append. A successful
`create_travel_plan_version` keeps every pre-existing row present and
unchanged (the unique row with an old id is the old row), adds exactly one
row, and the root INSERT has the same frame property — no operation updates
a version in place or deletes one. -/
theorem create_travel_plan_version_insert_only (s : Store) (plan_id : Nat)
    (reason : Option String) (u : PlanUpdates) (s2 : Store) (nid : Nat)
    (hinv : StoreInv s)
    (h : create_travel_plan_version s plan_id reason u = .ok (s2, nid)) :
    (∀ r ∈ s.rows, r ∈ s2.rows) ∧
    (∀ r ∈ s.rows, ∀ r2 ∈ s2.rows, r2.id = r.id → r2 = r) ∧
    s2.rows.length = s.rows.length + 1 ∧
    (∀ doc, (∀ r ∈ s.rows, r ∈ (create_root s doc).rows) ∧
      (∀ r ∈ s.rows, ∀ r2 ∈ (create_root s doc).rows, r2.id = r.id → r2 = r) ∧
      (create_root s doc).rows.length = s.rows.length + 1) := by
  unfold create_travel_plan_version at h
  cases hfind : s.rows.find? (fun r => r.id == plan_id) with
  | none =>
    rw [hfind] at h
    cases h
  | some old =>
    rw [hfind] at h
    injection h with h12
    injection h12 with h1 h2
    subst h1
    refine ⟨?_, ?_, by simp, ?_⟩
    · intro r hr
      exact List.mem_append_left _ hr
    · intro r hr r2 hr2 hid
      rcases List.mem_append.mp hr2 with hm | hm
      · exact pairwise_id_inj s.rows hinv.nodupIds r2 r hm hr hid
      · simp at hm
        have hb := hinv.bounded r hr
        rw [hm] at hid
        simp at hid
        omega
    · intro doc
      refine ⟨?_, ?_, by simp [create_root]⟩
      · intro r hr
        exact List.mem_append_left _ hr
      · intro r hr r2 hr2 hid
        rcases List.mem_append.mp hr2 with hm | hm
        · exact pairwise_id_inj s.rows hinv.nodupIds r2 r hm hr hid
        · simp [create_root] at hm
          have hb := hinv.bounded r hr
          rw [hm] at hid
          simp at hid
          omega

/-- C9 witness: versioning the one-row store keeps `P1` intact and adds
one row. -/
theorem create_travel_plan_version_insert_only_witness :
    rootRow ∈ demoStore2.rows ∧
    demoStore2.rows.length = demoStore1.rows.length + 1 := by
  have h := create_travel_plan_version_insert_only demoStore1 0
    (some "swap destination") updKyoto demoStore2 1
    (reachable_inv demoStore1 demoStore1_reachable) rfl
  exact ⟨h.1 rootRow (by simp [demoStore1]), h.2.2.1⟩

/-- C1: on the concrete chain `P1 (version 1) ← P2 (version 2)`,
`get_travel_plan_history` anchored at the child returns only the child and
its descendants — the recursive CTE never walks `parent_id` backward to the
root, despite the function's own comments — so two ids of the same chain
yield different sequences. -/
theorem get_travel_plan_history_anchor_dependent :
    get_travel_plan_history demoRows 0 = .ok [rootRow.toHist, childRow.toHist] ∧
    get_travel_plan_history demoRows 1 = .ok [childRow.toHist] ∧
    get_travel_plan_history demoRows 1 ≠ get_travel_plan_history demoRows 0 := by
  have h0 : get_travel_plan_history demoRows 0 =
      .ok [rootRow.toHist, childRow.toHist] := rfl
  have h1 : get_travel_plan_history demoRows 1 = .ok [childRow.toHist] := rfl
  refine ⟨h0, h1, ?_⟩
  rw [h0, h1]
  simp

/-- C5 counterexample: anchored at an id that identifies no stored version,
`get_travel_plan_history` returns the empty table successfully — it does
not signal an error. -/
theorem get_travel_plan_history_missing_id_counterexample :
    get_travel_plan_history demoRows 99 = .ok [] := rfl

/-- C5 (amended): for an id that identifies no stored version,
`get_travel_plan_history` returns an empty sequence (no error is raised:
the function body contains no RAISE). -/
theorem get_travel_plan_history_missing_id_empty (rows : List PlanRow)
    (pid : Nat) (h : ∀ r ∈ rows, r.id ≠ pid) :
    get_travel_plan_history rows pid = .ok [] := by
  have hbase : rows.filter (fun r => r.id == pid) = [] := by
    apply List.filter_eq_nil_iff.mpr
    intro r hr
    simp [h r hr]
  unfold get_travel_plan_history
  rw [hbase, cteIter_nil]
  rfl

/-- C5 witness: the empty table holds no version at all. -/
theorem get_travel_plan_history_missing_id_empty_witness :
    get_travel_plan_history [] 5 = .ok [] :=
  get_travel_plan_history_missing_id_empty [] 5 (by intro r hr; cases hr)

/-- On a duplicate-free ordering, `LEAD` of the element at position `i` is
the element at position `i + 1`. -/
theorem nextAfter_get (l : List ListPlan) (hnd : l.Nodup) :
    ∀ i (h1 : i < l.length) (hi : i + 1 < l.length),
      nextAfter l (l.get ⟨i, h1⟩) = some (l.get ⟨i + 1, hi⟩) := by
  induction l with
  | nil =>
    intro i h1 hi
    simp at h1
  | cons a t ih =>
    intro i h1 hi
    cases t with
    | nil => simp at hi
    | cons b rest =>
      cases i with
      | zero =>
        show nextAfter (a :: b :: rest) a = some b
        simp [nextAfter]
      | succ j =>
        have hj1 : j < (b :: rest).length := by
          simp only [List.length_cons] at h1 ⊢
          omega
        have hj2 : j + 1 < (b :: rest).length := by
          simp only [List.length_cons] at hi ⊢
          omega
        have hmem : (b :: rest).get ⟨j, hj1⟩ ∈ b :: rest := List.get_mem _ _ _
        have hne : ¬ a = (b :: rest).get ⟨j, hj1⟩ := by
          intro he
          exact (List.nodup_cons.mp hnd).1 (he ▸ hmem)
        show nextAfter (a :: b :: rest) ((b :: rest).get ⟨j, hj1⟩) =
          some ((b :: rest).get ⟨j + 1, hj2⟩)
        rw [nextAfter, if_neg hne]
        exact ih (List.nodup_cons.mp hnd).2 j hj1 hj2

/-- On a duplicate-free ordering, `LAG` of the element at position `i + 1`
is the element at position `i`. -/
theorem prevBefore_get (l : List ListPlan) (hnd : l.Nodup) (i : Nat)
    (h1 : i < l.length) (hi : i + 1 < l.length) :
    prevBefore l (l.get ⟨i + 1, hi⟩) = some (l.get ⟨i, h1⟩) := by
  unfold prevBefore
  have hj1 : l.length - 1 - (i + 1) < l.reverse.length := by
    rw [List.length_reverse]
    omega
  have hj2 : l.length - 1 - (i + 1) + 1 < l.reverse.length := by
    rw [List.length_reverse]
    omega
  have e1 : l.reverse.get ⟨l.length - 1 - (i + 1), hj1⟩ = l.get ⟨i + 1, hi⟩ :=
    List.get_reverse l (i + 1) hj1 hi
  have e2 : l.reverse.get ⟨l.length - 1 - (i + 1) + 1, hj2⟩ = l.get ⟨i, h1⟩ := by
    rw [show (⟨l.length - 1 - (i + 1) + 1, hj2⟩ : Fin l.reverse.length) =
        ⟨l.length - 1 - i, by rw [List.length_reverse]; omega⟩ from by
      simp only [Fin.mk.injEq]
      omega]
    exact List.get_reverse l i (by rw [List.length_reverse]; omega) h1
  rw [← e1, ← e2]
  exact nextAfter_get l.reverse (List.nodup_reverse.mpr hnd)
    (l.length - 1 - (i + 1)) hj1 hj2

/-- C8 counterexample: owner 7 has two plan rows, one with a NULL
`travel_query_id`; the inner join drops it, so the view reports
`total_user_plans = 1` while the owner has 2 plan rows (and the dropped
row is absent from the listing altogether). -/
theorem travel_plans_paginated_total_counterexample :
    travel_plans_paginated plansCx [1] =
      [{ id := 0, user_id := 7, next_cursor := none, prev_cursor := none,
         total_user_plans := 1 }] ∧
    (plansCx.filter (fun p => p.user_id == 7)).length = 2 := by
  constructor
  · rfl
  · rfl

/-- C8 (amended): for an owner whose joined rows have pairwise-distinct
creation times, the owner partition used by the view is the owner's joined
rows ordered by `created_at` descending; for adjacent positions in that
ordering the generated view rows carry `next_cursor`/`prev_cursor` equal to
the neighbouring row ids; and every view row of that owner reports
`total_user_plans` equal to the number of the owner's plan rows that join
an existing travel query (not of all the owner's plan rows). -/
theorem travel_plans_paginated_spec (plans : List ListPlan)
    (queries : List Nat) (u : Nat)
    (hd : ((joinedPlans plans queries).filter (fun p => p.user_id == u)).Pairwise
      (fun a b => a.created_at ≠ b.created_at)) :
    List.Sorted createdDesc (userPartition plans queries u) ∧
    (userPartition plans queries u).Perm
      ((joinedPlans plans queries).filter (fun p => p.user_id == u)) ∧
    (∀ i, ∀ h1 : i < (userPartition plans queries u).length,
      ∀ hi : i + 1 < (userPartition plans queries u).length,
      (pagRowOf plans queries ((userPartition plans queries u).get ⟨i, h1⟩)).next_cursor =
        some (((userPartition plans queries u).get ⟨i + 1, hi⟩).id) ∧
      (pagRowOf plans queries ((userPartition plans queries u).get ⟨i + 1, hi⟩)).prev_cursor =
        some (((userPartition plans queries u).get ⟨i, h1⟩).id)) ∧
    (∀ row ∈ travel_plans_paginated plans queries, row.user_id = u →
      row.total_user_plans =
        ((joinedPlans plans queries).filter (fun p => p.user_id == u)).length) := by
  have hperm : (userPartition plans queries u).Perm
      ((joinedPlans plans queries).filter (fun p => p.user_id == u)) :=
    List.perm_insertionSort createdDesc _
  have hnodupF : ((joinedPlans plans queries).filter (fun p => p.user_id == u)).Nodup :=
    hd.imp (fun hne he => hne (congrArg ListPlan.created_at he))
  have hnodup : (userPartition plans queries u).Nodup :=
    hperm.nodup_iff.mpr hnodupF
  have hmem_user : ∀ x ∈ userPartition plans queries u, x.user_id = u := by
    intro x hx
    have hxf : x ∈ (joinedPlans plans queries).filter (fun p => p.user_id == u) :=
      hperm.subset hx
    have := (List.mem_filter.mp hxf).2
    simpa using this
  refine ⟨List.sorted_insertionSort createdDesc _, hperm, ?_, ?_⟩
  · intro i h1 hi
    have hpu : ((userPartition plans queries u).get ⟨i, h1⟩).user_id = u :=
      hmem_user _ (List.get_mem _ _ _)
    have hqu : ((userPartition plans queries u).get ⟨i + 1, hi⟩).user_id = u :=
      hmem_user _ (List.get_mem _ _ _)
    constructor
    · show (nextAfter
        (userPartition plans queries
          ((userPartition plans queries u).get ⟨i, h1⟩).user_id)
        ((userPartition plans queries u).get ⟨i, h1⟩)).map (fun q => q.id) =
        some (((userPartition plans queries u).get ⟨i + 1, hi⟩).id)
      rw [hpu, nextAfter_get _ hnodup i h1 hi]
      rfl
    · show (prevBefore
        (userPartition plans queries
          ((userPartition plans queries u).get ⟨i + 1, hi⟩).user_id)
        ((userPartition plans queries u).get ⟨i + 1, hi⟩)).map (fun q => q.id) =
        some (((userPartition plans queries u).get ⟨i, h1⟩).id)
      rw [hqu, prevBefore_get _ hnodup i h1 hi]
      rfl
  · intro row hrow hru
    obtain ⟨q, hq, rfl⟩ := List.mem_map.mp hrow
    have hqu : q.user_id = u := hru
    show ((joinedPlans plans queries).filter (fun x => x.user_id == q.user_id)).length = _
    rw [hqu]

/-- C8 witness: two joined rows of owner 7 with distinct times — the newer
row's `next_cursor` is the older row's id and vice versa, and the count is
2. -/
theorem travel_plans_paginated_spec_witness :
    (pagRowOf plansW [1]
      { id := 0, user_id := 7, travel_query_id := some 1, created_at := 10 }).next_cursor =
      some 2 ∧
    (pagRowOf plansW [1]
      { id := 2, user_id := 7, travel_query_id := some 1, created_at := 5 }).prev_cursor =
      some 0 ∧
    (pagRowOf plansW [1]
      { id := 0, user_id := 7, travel_query_id := some 1, created_at := 10 }).total_user_plans = 2 := by
  have h := travel_plans_paginated_spec plansW [1] 7 (by decide)
  obtain ⟨hsort, hperm, hadj, htot⟩ := h
  have h01 := hadj 0 (by decide) (by decide)
  exact ⟨h01.1, h01.2, rfl⟩
